import Mathlib

/-!
Verification development for the canvas quote-card renderer
(`wwwroot/canvas.js`): a shallow embedding of the module's data model and
operations, together with theorems about the wrapping algorithm, the
anchor math, the loader state machine and the renderer.

Strings are embedded as `List Char`; JS numbers that can be `NaN`,
`±Infinity` or `undefined` are embedded as `JSVal`; finite numeric
computation is carried out in `ℚ`.
-/

namespace UmaText

abbrev Str := List Char

/-- JS whitespace: the character set matched by the regex class `\s`,
which is also the set removed by `trimStart` / `trimEnd`. -/
def isWS (c : Char) : Bool :=
  c == ' ' || c == '\t' || c == '\n' || c.val == 11 || c.val == 12 || c == '\r' ||
  c.val == 0xA0 || c.val == 0x1680 || (0x2000 ≤ c.val && c.val ≤ 0x200A) ||
  c.val == 0x2028 || c.val == 0x2029 || c.val == 0x202F || c.val == 0x205F ||
  c.val == 0x3000 || c.val == 0xFEFF

/-- JS `String.prototype.trimStart`. -/
def trimStart (s : Str) : Str := s.dropWhile isWS

/-- JS `String.prototype.trimEnd`. -/
def trimEnd (s : Str) : Str := (s.reverse.dropWhile isWS).reverse

/-- The non-whitespace content of a string, in order. -/
def filterNonWS (s : Str) : Str := s.filter (fun c => !isWS c)

/-- `text.replace(/\r\n/g, "\n")` (canvas.js line 118): left-to-right,
non-overlapping replacement of CRLF by LF. -/
def normalizeNewlines : Str → Str
  | [] => []
  | '\r' :: '\n' :: rest => '\n' :: normalizeNewlines rest
  | c :: rest => c :: normalizeNewlines rest

/-- `s.split("\n")` (canvas.js line 118). -/
def splitOnNewline : Str → List Str
  | [] => [[]]
  | c :: rest =>
    let ps := splitOnNewline rest
    if c = '\n' then [] :: ps
    else
      match ps with
      | [] => [[c]]
      | p :: ps' => (c :: p) :: ps'

/-- Maximal runs of characters agreeing on `isWS`. -/
def runs : Str → List Str
  | [] => []
  | c :: cs =>
    match runs cs with
    | [] => [[c]]
    | [] :: rs => [c] :: [] :: rs
    | (d :: r) :: rs =>
      if isWS c == isWS d then (c :: d :: r) :: rs else [c] :: (d :: r) :: rs

def headIsWS : Str → Bool
  | [] => false
  | c :: _ => isWS c

/-- JS `paragraph.split(/(\s+)/)` (canvas.js line 128): split on whitespace
runs, keeping the separators; when the string begins (resp. ends) with a
separator, an empty chunk is produced at the front (resp. back). -/
def splitWSTokens (s : Str) : List Str :=
  match runs s with
  | [] => [[]]
  | r :: rs =>
    let base := r :: rs
    let withFront := if headIsWS r then [] :: base else base
    match (r :: rs).getLast? with
    | some t => if headIsWS t then withFront ++ [[]] else withFront
    | none => withFront

/-- The greedy word-accumulation loop of `wrapLines` (canvas.js lines
129-141): `line` is the line being accumulated, the returned list is the
sequence of committed lines. -/
def wrapWords (m : Str → ℚ) (W : ℚ) : List Str → Str → List Str
  | [], line => if line.length > 0 then [trimEnd line] else []
  | w :: ws, line =>
    let test := line ++ w
    if m test ≤ W ∨ line.length = 0 then
      wrapWords m W ws test
    else
      trimEnd line :: wrapWords m W ws (trimStart w)

/-- One iteration of the paragraph loop of `wrapLines` (canvas.js lines
120-142): an empty paragraph yields the single-space sentinel, any other
paragraph is tokenized and wrapped greedily. -/
def wrapParagraph1 (m : Str → ℚ) (W : ℚ) (p : Str) : List Str :=
  if p.length = 0 then [[' ']]
  else wrapWords m W (splitWSTokens p) []

/-- The greedy character-accumulation loop of the fallback pass (canvas.js
lines 151-161): `buf` is the chunk being accumulated. -/
def splitChars (m : Str → ℚ) (W : ℚ) : Str → Str → List Str
  | [], buf => if buf.length > 0 then [buf] else []
  | ch :: rest, buf =>
    let test := buf ++ [ch]
    if m test ≤ W ∨ buf.length = 0 then
      splitChars m W rest test
    else
      buf :: splitChars m W rest [ch]

/-- One iteration of the fallback pass of `wrapLines` (canvas.js lines
146-162): a line that fits is kept, an over-wide line is re-split
character by character. -/
def fixLine (m : Str → ℚ) (W : ℚ) (l : Str) : List Str :=
  if m l ≤ W then [l] else splitChars m W l []

/-- `wrapLines(ctx, text, maxWidth)` (canvas.js lines 116-165).  The width
measurer `m` embeds `ctx.measureText(·).width` under the active font. -/
def wrapLines (m : Str → ℚ) (text : Str) (W : ℚ) : List Str :=
  let raw := splitOnNewline (normalizeNewlines text)
  let lines := (raw.map (wrapParagraph1 m W)).flatten
  let fixed := (lines.map (fixLine m W)).flatten
  fixed.map (fun l => if l = [] then [' '] else l)

/-- The lines `wrapLines` produces for one paragraph: greedy wrap, then
character fallback, then the empty-line-to-space replacement.  `wrapLines`
is the concatenation of `wrapParagraph` over the paragraphs (proved
below). -/
def wrapParagraph (m : Str → ℚ) (W : ℚ) (p : Str) : List Str :=
  (((wrapParagraph1 m W p).map (fixLine m W)).flatten).map
    (fun l => if l = [] then [' '] else l)

/-- Character-count measurer, used to instantiate theorems on concrete
inputs. -/
def lenM (s : Str) : ℚ := s.length

example : wrapLines lenM ('a' :: 'b' :: ' ' :: 'c' :: 'd' :: []) 2
    = [['a', 'b'], ['c', 'd']] := by decide

example : wrapLines lenM [] 5 = [[' ']] := by decide

example : wrapLines lenM ('a' :: 'b' :: 'c' :: 'd' :: 'e' :: []) 2
    = [['a', 'b'], ['c', 'd'], ['e']] := by decide

example : wrapLines lenM ('a' :: '\n' :: '\n' :: 'b' :: []) 5
    = [['a'], [' '], ['b']] := by decide

/-! ## JS numbers

A JS number supplied through the options object is either `undefined`
(the field is absent), `NaN`, an infinity, or a finite value (embedded in
`ℚ`).  Arithmetic coerces `undefined` to `NaN`; `??` replaces only
`undefined` (and `null`, folded into `undef` here). -/

inductive JSVal
  | undef
  | nan
  | inf (pos : Bool)
  | num (q : ℚ)
deriving DecidableEq

def JSVal.isFiniteNum : JSVal → Bool
  | .num _ => true
  | _ => false

/-- `a ?? b`. -/
def jsNullish (a b : JSVal) : JSVal :=
  match a with
  | .undef => b
  | _ => a

/-- JS `+` on numbers (`undefined` coerces to `NaN`). -/
def jsAdd : JSVal → JSVal → JSVal
  | .num a, .num b => .num (a + b)
  | .inf p, .num _ => .inf p
  | .num _, .inf p => .inf p
  | .inf p, .inf q => if p = q then .inf p else .nan
  | _, _ => .nan

def jsNeg : JSVal → JSVal
  | .num q => .num (-q)
  | .inf p => .inf (!p)
  | _ => .nan

/-- JS `-` on numbers. -/
def jsSub (a b : JSVal) : JSVal := jsAdd a (jsNeg b)

/-- JS `*` on numbers (`0 * ±Infinity = NaN`). -/
def jsMul : JSVal → JSVal → JSVal
  | .num a, .num b => .num (a * b)
  | .inf p, .num b => if b = 0 then .nan else .inf (p = decide (0 < b))
  | .num a, .inf p => if a = 0 then .nan else .inf (p = decide (0 < a))
  | .inf p, .inf q => .inf (p = q)
  | _, _ => .nan

/-- JS `Math.max` on two numbers (any `NaN` operand wins). -/
def jsMax : JSVal → JSVal → JSVal
  | .num a, .num b => .num (max a b)
  | .inf true, .num _ => .inf true
  | .num _, .inf true => .inf true
  | .inf false, .num b => .num b
  | .num a, .inf false => .num a
  | .inf p, .inf q => .inf (p || q)
  | _, _ => .nan

/-- `clamp01(v)` (canvas.js lines 13-17): `Number(v)` maps `undefined` to
`NaN`; any non-finite value is mapped to `0`; a finite value is clamped
to `[0, 1]` by `Math.max(0, Math.min(1, v))`. -/
def clamp01 (v : JSVal) : ℚ :=
  match v with
  | .num q => max 0 (min 1 q)
  | _ => 0

/-- `lerp(a, b, t)` (canvas.js lines 19-21). -/
def lerp (a b t : ℚ) : ℚ := a + (b - a) * t

/-- JS `Math.round` on a finite value: round half toward `+∞`. -/
def mathRound (q : ℚ) : ℚ := ((⌊q + 1 / 2⌋ : ℤ) : ℚ)

/-- JS `Math.round` lifted to `JSVal`. -/
def jsRound : JSVal → JSVal
  | .num q => .num (mathRound q)
  | .inf p => .inf p
  | _ => .nan

/-! ## Data model -/

/-- A decoded `HTMLImageElement`: its intrinsic (natural) pixel size and
its layout size. -/
structure Img where
  naturalWidth : ℕ
  naturalHeight : ℕ
  width : ℕ
  height : ℕ
deriving DecidableEq

/-- The drawing surface: a canvas with mutable pixel dimensions. -/
structure Canvas where
  width : ℕ
  height : ℕ
deriving DecidableEq

/-- The module-level `_state` object (canvas.js lines 1-7).  `fontLoaded`
is the field added dynamically by `loadBundledFont` (line 40).  Object
URLs are embedded as natural numbers handed out by a counter. -/
structure RenderState where
  bgImg : Option Img
  bgObjectUrl : Option ℕ
  fontFamily : Option Str
  fontLoaded : Bool
  customFontFamily : Option Str
  separatorImg : Option Img
deriving DecidableEq

def initState : RenderState :=
  { bgImg := none, bgObjectUrl := none, fontFamily := none,
    fontLoaded := false, customFontFamily := none, separatorImg := none }

/-! ## Renderer -/

inductive ShadowColor
  | transparent
  | blackA75
deriving DecidableEq

structure ShadowState where
  color : ShadowColor
  blur : ℚ
  offsetX : JSVal
  offsetY : JSVal
deriving DecidableEq

/-- The 2D context's initial shadow configuration. -/
def initShadow : ShadowState :=
  { color := .transparent, blur := 0, offsetX := .num 0, offsetY := .num 0 }

/-- The font assigned by `ctx.font = `700 ${size}px "${family}"``. -/
structure FontSpec where
  weight : ℕ
  size : JSVal
  family : Str
deriving DecidableEq

/-- A drawing call issued against the 2D context, with the shadow
configuration in force when it was issued. -/
inductive DrawOp
  | clearRect (x y w h : ℚ)
  | drawImage (img : Img) (x y w h : JSVal) (alpha : ℚ) (shadow : ShadowState)
  | fillText (s : Str) (x y : JSVal) (font : FontSpec) (shadow : ShadowState)
deriving DecidableEq

/-- The options record read by `render` (canvas.js lines 169-183). -/
structure RenderOptions where
  characterName : Option Str
  bodyText : Option Str
  nameFontSize : JSVal
  bodyFontSize : JSVal
  showName : Bool
  showLine : Bool
  withShadow : Bool
  shadowOffsetPx : JSVal
  addBottomBar : Bool
  bottomBarHeightPx : JSVal
  useCustomFont : Bool
  fallbackFont : Option Str
  nameX01 : JSVal
  nameY01 : JSVal
  bodyX01 : JSVal
  bodyY01 : JSVal
deriving DecidableEq

/-- An options object with every field absent. -/
def emptyOpts : RenderOptions :=
  { characterName := none, bodyText := none, nameFontSize := .undef,
    bodyFontSize := .undef, showName := false, showLine := false,
    withShadow := false, shadowOffsetPx := .undef, addBottomBar := false,
    bottomBarHeightPx := .undef, useCustomFont := false, fallbackFont := none,
    nameX01 := .undef, nameY01 := .undef, bodyX01 := .undef, bodyY01 := .undef }

inductive RenderErr
  | canvasNotFound
  | contextUnavailable
deriving DecidableEq

def sansSerif : Str := 's' :: 'a' :: 'n' :: 's' :: '-' :: 's' :: 'e' :: 'r' :: 'i' :: 'f' :: []

/-- JS truthiness of a nullable string (the empty string is falsy). -/
def truthyStr : Option Str → Bool
  | some s => !s.isEmpty
  | none => false

/-- Font-family resolution (canvas.js lines 205-207):
`(options.useCustomFont && _state.customFontFamily) ? custom : (_state.fontFamily || "sans-serif")`. -/
def resolveFamily (st : RenderState) (o : RenderOptions) : Str :=
  if o.useCustomFont && truthyStr st.customFontFamily then st.customFontFamily.getD []
  else if truthyStr st.fontFamily then st.fontFamily.getD []
  else sansSerif

/-- `Math.max(0, options.shadowOffsetPx ?? 2)` (canvas.js line 211). -/
def shadowOffsetOf (o : RenderOptions) : JSVal :=
  jsMax (.num 0) (jsNullish o.shadowOffsetPx (.num 2))

/-- The shadow configuration installed by `applyShadow` (canvas.js lines
213-225). -/
def appliedShadow (o : RenderOptions) : ShadowState :=
  if o.withShadow then
    { color := .blackA75, blur := 0, offsetX := shadowOffsetOf o,
      offsetY := shadowOffsetOf o }
  else
    { color := .transparent, blur := 0, offsetX := .num 0, offsetY := .num 0 }

/-- `clamp01(options.nameX01 - 0.25 ?? 0.20)` (canvas.js line 264).
Because `??` binds looser than `-`, the subtraction is evaluated first
(yielding `NaN` when `nameX01` is `undefined`), and the `?? 0.20` default
is dead code: its left operand is a number, never nullish. -/
def barX01 (o : RenderOptions) : ℚ :=
  clamp01 (jsNullish (jsSub o.nameX01 (.num (1 / 4))) (.num (1 / 5)))

/-- `clamp01(options.nameY01 + 0.025 ?? 0.80)` (canvas.js line 265); the
`?? 0.80` default is dead code for the same reason as in `barX01`. -/
def barY01 (o : RenderOptions) : ℚ :=
  clamp01 (jsNullish (jsAdd o.nameY01 (.num (1 / 40))) (.num (4 / 5)))

/-- `render(canvasId, options)` (canvas.js lines 185-298), embedded as the
list of drawing calls it issues.  `canvas` is the element found under the
given id (`none` when absent), `ctxAvailable` tells whether
`getContext("2d")` succeeds, and `measure f s` embeds
`ctx.measureText(s).width` under font `f`. -/
def render (st : RenderState) (canvas : Option Canvas) (ctxAvailable : Bool)
    (o : RenderOptions) (measure : FontSpec → Str → ℚ) :
    Except RenderErr (List DrawOp) :=
  match canvas with
  | none => .error .canvasNotFound
  | some cv =>
    if ctxAvailable = false then .error .contextUnavailable
    else
      match st.bgImg with
      | none => .ok [.clearRect 0 0 (cv.width : ℚ) (cv.height : ℚ)]
      | some img =>
        let cw : ℚ := cv.width
        let ch : ℚ := cv.height
        let family := resolveFamily st o
        let shadow := appliedShadow o
        let maxTextWidth : ℚ := cw
        let nameOps : List DrawOp :=
          if o.showName then
            let nameSize := jsMax (.num 10) (jsNullish o.nameFontSize (.num 56))
            let nameX := mathRound (lerp 0 cw (clamp01 (jsNullish o.nameX01 (.num (1 / 5)))))
            let nameY := mathRound (lerp 0 ch (clamp01 (jsNullish o.nameY01 (.num (4 / 5)))))
            [.fillText (o.characterName.getD []) (.num nameX) (.num nameY)
              { weight := 700, size := nameSize, family := family } shadow]
          else []
        let shadowAfterName := if o.showName then shadow else initShadow
        let sepOps : List DrawOp :=
          match o.showLine, st.separatorImg with
          | true, some sep =>
            let barX := mathRound (lerp 0 cw (barX01 o))
            let barY := mathRound (lerp 0 ch (barY01 o))
            [.drawImage sep (.num barX) (.num barY) (.num 552) (.num 8) 1
              { shadowAfterName with color := .transparent }]
          | _, _ => []
        let bodySize := jsMax (.num 10) (jsNullish o.bodyFontSize (.num 50))
        let bodyFont : FontSpec := { weight := 700, size := bodySize, family := family }
        let lines := wrapLines (measure bodyFont) (o.bodyText.getD []) maxTextWidth
        let bodyAnchorX := mathRound (lerp 0 cw (clamp01 (jsNullish o.bodyX01 (.num (1 / 5)))))
        let bodyAnchorY := mathRound (lerp 0 ch (clamp01 (jsNullish o.bodyY01 (.num (4 / 5)))))
        let lineHeight := jsRound (jsMul bodySize (.num (23 / 20)))
        let bodyOps : List DrawOp := lines.enum.map (fun p =>
          .fillText p.2 (.num bodyAnchorX)
            (jsAdd (.num bodyAnchorY) (jsMul (.num (p.1 : ℚ)) lineHeight))
            bodyFont shadow)
        .ok ([.clearRect 0 0 cw ch,
              .drawImage img (.num 0) (.num 0) (.num cw) (.num ch) 1 initShadow]
             ++ nameOps ++ sepOps ++ bodyOps)

/-! ## Loader operations and the URL lifecycle

A `World` pairs the render state with the canvas, the platform's set of
live object URLs, and a counter handing out fresh URLs.  `storedBgUrls`
is bookkeeping (never read by the operations themselves): the URLs that
were ever assigned to `bgObjectUrl`, used to state the lifecycle
invariant. -/

structure World where
  state : RenderState
  canvas : Canvas
  liveUrls : List ℕ
  storedBgUrls : List ℕ
  nextUrl : ℕ
deriving DecidableEq

inductive UrlEvent
  | created (u : ℕ)
  | revoked (u : ℕ)
  | storedBg (u : ℕ)
deriving DecidableEq

inductive LoadErr
  | canvasNotFound
  | imageLoadFailed
  | fontLoadFailed
deriving DecidableEq

/-- Result of a loader operation: the world after the call, the URL
lifecycle events it performed (in order), and the error it threw, if
any. -/
structure OpResult where
  world : World
  events : List UrlEvent
  error : Option LoadErr
deriving DecidableEq

/-- `URL.createObjectURL(blob)`. -/
def createObjectURL (w : World) : World × ℕ :=
  ({ w with liveUrls := w.nextUrl :: w.liveUrls, nextUrl := w.nextUrl + 1 },
   w.nextUrl)

/-- `revokeObjectUrl(url)` (canvas.js lines 9-11): a no-op on a null URL;
revoking an absent URL is harmless. -/
def revokeObjectUrl (w : World) (url : Option ℕ) : World × List UrlEvent :=
  match url with
  | none => (w, [])
  | some u => ({ w with liveUrls := w.liveUrls.erase u }, [.revoked u])

/-- `setBackgroundImageFromBytes(canvasId, bytes)` (canvas.js lines
47-72).  `canvasFound` embeds `document.getElementById` succeeding,
`decoded` the image decode result.  The object URL is created before the
decode is awaited; on decode failure it leaks but the state is untouched.
On success the old background URL is revoked, the new image and URL are
stored, and the canvas is resized to `naturalWidth || width` by
`naturalHeight || height`. -/
def setBackgroundImageFromBytes (canvasFound : Bool) (decoded : Option Img)
    (w : World) : OpResult :=
  if canvasFound = false then { world := w, events := [], error := some .canvasNotFound }
  else
    let c := createObjectURL w
    let w1 := c.1
    let url := c.2
    match decoded with
    | none => { world := w1, events := [.created url], error := some .imageLoadFailed }
    | some img =>
      let r := revokeObjectUrl w1 w1.state.bgObjectUrl
      let w2 := r.1
      let st := { w2.state with bgObjectUrl := some url, bgImg := some img }
      let cv : Canvas :=
        { width := if img.naturalWidth ≠ 0 then img.naturalWidth else img.width,
          height := if img.naturalHeight ≠ 0 then img.naturalHeight else img.height }
      let w3 := { w2 with state := st, canvas := cv, storedBgUrls := url :: w2.storedBgUrls }
      { world := w3,
        events := [.created url] ++ r.2 ++ [.storedBg url],
        error := none }

/-- `loadFontFromBytes(fontBytes, familyName)` (canvas.js lines 77-89).
The temporary object URL is created first; on load failure it leaks and
the state is untouched; on success `customFontFamily` is set and the URL
is revoked. -/
def loadFontFromBytes (loadOk : Bool) (familyName : Str) (w : World) : OpResult :=
  let c := createObjectURL w
  let w1 := c.1
  let url := c.2
  if loadOk = false then
    { world := w1, events := [.created url], error := some .fontLoadFailed }
  else
    let st := { w1.state with customFontFamily := some familyName }
    let r := revokeObjectUrl { w1 with state := st } (some url)
    { world := r.1, events := [.created url] ++ r.2, error := none }

/-- `loadSeparatorImage(url)` (canvas.js lines 98-109): no object URL is
involved; on decode failure the state is untouched. -/
def loadSeparatorImage (decoded : Option Img) (w : World) : OpResult :=
  match decoded with
  | none => { world := w, events := [], error := some .imageLoadFailed }
  | some img =>
    { world := { w with state := { w.state with separatorImg := some img } },
      events := [], error := none }

/-- `loadBundledFont(family, url, weight)` (canvas.js lines 29-41). -/
def loadBundledFont (loadOk : Bool) (family : Str) (w : World) : OpResult :=
  if loadOk = false then { world := w, events := [], error := some .fontLoadFailed }
  else
    let st := { w.state with fontFamily := some family, fontLoaded := true }
    { world := { w with state := st }, events := [], error := none }

/-- `clearCustomFont()` (canvas.js lines 91-93). -/
def clearCustomFont (w : World) : OpResult :=
  { world := { w with state := { w.state with customFontFamily := none } },
    events := [], error := none }

/-- `disposeBackground()` (canvas.js lines 323-327). -/
def disposeBackground (w : World) : OpResult :=
  let r := revokeObjectUrl w w.state.bgObjectUrl
  { world := { r.1 with state := { r.1.state with bgObjectUrl := none, bgImg := none } },
    events := r.2, error := none }

/-- The loader operations, abstracted over the platform outcomes of their
decodes. -/
inductive LoaderOp
  | setBg (canvasFound : Bool) (decoded : Option Img)
  | loadFont (loadOk : Bool) (familyName : Str)
  | loadSep (decoded : Option Img)
  | loadBundled (loadOk : Bool) (family : Str)
  | clearFont
  | dispose

def applyOp (w : World) : LoaderOp → OpResult
  | .setBg cf d => setBackgroundImageFromBytes cf d w
  | .loadFont ok f => loadFontFromBytes ok f w
  | .loadSep d => loadSeparatorImage d w
  | .loadBundled ok f => loadBundledFont ok f w
  | .clearFont => clearCustomFont w
  | .dispose => disposeBackground w

def runOps (w : World) : List LoaderOp → World
  | [] => w
  | op :: ops => runOps (applyOp w op).world ops

/-- The world at module load: empty state, no live URLs. -/
def initWorld (cv : Canvas) : World :=
  { state := initState, canvas := cv, liveUrls := [], storedBgUrls := [],
    nextUrl := 0 }

/-- The live object URLs that were ever stored as the background resource
handle: the live background handles. -/
def liveBgUrls (w : World) : List ℕ :=
  w.liveUrls.filter (fun u => decide (u ∈ w.storedBgUrls))

/-! ## The fallback pass bounds every line (towards C1) -/

/-- Every chunk committed by the character-level greedy loop is a single
character or fits in the width budget, provided the running buffer does. -/
lemma splitChars_sound (m : Str → ℚ) (W : ℚ) (cs buf : Str)
    (hbuf : buf = [] ∨ buf.length = 1 ∨ m buf ≤ W) :
    ∀ l ∈ splitChars m W cs buf, l.length = 1 ∨ m l ≤ W := by
  induction cs generalizing buf with
  | nil =>
    intro l hl
    simp only [splitChars] at hl
    split at hl
    · rcases List.mem_singleton.mp hl with rfl
      rcases hbuf with h0 | h1 | hle
      · subst h0; simp_all
      · exact Or.inl h1
      · exact Or.inr hle
    · simp at hl
  | cons ch rest ih =>
    intro l hl
    simp only [splitChars] at hl
    split at hl
    next hc =>
      refine ih (buf ++ [ch]) ?_ l hl
      rcases hc with hle | h0
      · exact Or.inr (Or.inr hle)
      · rw [List.length_eq_zero.mp h0]
        exact Or.inr (Or.inl rfl)
    next hc =>
      rcases List.mem_cons.mp hl with rfl | hl'
      · push_neg at hc
        rcases hbuf with h0 | h1 | hle
        · exact absurd (by simp [h0]) hc.2
        · exact Or.inl h1
        · exact Or.inr hle
      · exact ih [ch] (Or.inr (Or.inl rfl)) l hl'

/-- Every line produced by one step of the fallback pass is a single
character or fits in the width budget. -/
lemma fixLine_sound (m : Str → ℚ) (W : ℚ) (l : Str) :
    ∀ l' ∈ fixLine m W l, l'.length = 1 ∨ m l' ≤ W := by
  intro l' hl'
  unfold fixLine at hl'
  split at hl'
  next hle => rcases List.mem_singleton.mp hl' with rfl; exact Or.inr hle
  next => exact splitChars_sound m W l [] (Or.inl rfl) l' hl'

/-- C1: for every text, measurer and `maxWidth > 0`, every line returned
by `wrapLines` has measured width at most `maxWidth`, or is a single
character whose own measured width exceeds `maxWidth`. -/
theorem wrapLines_width_bound (m : Str → ℚ) (text : Str) (W : ℚ) (hW : 0 < W)
    (l : Str) (hl : l ∈ wrapLines m text W) :
    m l ≤ W ∨ (l.length = 1 ∧ W < m l) := by
  simp only [wrapLines, List.mem_map] at hl
  obtain ⟨l0, hl0, rfl⟩ := hl
  rw [List.mem_flatten] at hl0
  obtain ⟨fl, hfl, hl0f⟩ := hl0
  rw [List.mem_map] at hfl
  obtain ⟨l1, -, rfl⟩ := hfl
  have key : (if l0 = [] then ([' '] : Str) else l0).length = 1 ∨
      m (if l0 = [] then ([' '] : Str) else l0) ≤ W := by
    split
    · exact Or.inl rfl
    · exact fixLine_sound m W l1 l0 hl0f
  rcases key with h1 | hle
  · by_cases hle2 : m (if l0 = [] then ([' '] : Str) else l0) ≤ W
    · exact Or.inl hle2
    · exact Or.inr ⟨h1, lt_of_not_le hle2⟩
  · exact Or.inl hle

/-- Witness for C1: with a character-count measurer and budget 2, the
text `"ab cd"` produces the line `"ab"`, which fits. -/
theorem wrapLines_width_bound_witness :
    (0 : ℚ) < 2 ∧ (lenM ('a' :: 'b' :: []) ≤ 2 ∨
      (('a' :: 'b' :: []).length = 1 ∧ 2 < lenM ('a' :: 'b' :: []))) :=
  ⟨by norm_num,
   wrapLines_width_bound lenM ('a' :: 'b' :: ' ' :: 'c' :: 'd' :: []) 2 (by norm_num)
     ('a' :: 'b' :: []) (by decide)⟩

/-! ## Content preservation (towards C2) -/

/-- The paragraphs of the input text. -/
def paragraphs (text : Str) : List Str := splitOnNewline (normalizeNewlines text)

lemma filterNonWS_append (a b : Str) :
    filterNonWS (a ++ b) = filterNonWS a ++ filterNonWS b :=
  List.filter_append ..

lemma filterNonWS_cons (c : Char) (s : Str) :
    filterNonWS (c :: s) = if isWS c then filterNonWS s else c :: filterNonWS s := by
  by_cases h : isWS c <;> simp [filterNonWS, List.filter_cons, h]

lemma filterNonWS_trimStart (s : Str) :
    filterNonWS (trimStart s) = filterNonWS s := by
  induction s with
  | nil => rfl
  | cons c rest ih =>
    by_cases h : isWS c
    · rw [show trimStart (c :: rest) = trimStart rest from by
        simp [trimStart, List.dropWhile_cons, h], ih, filterNonWS_cons, if_pos h]
    · simp [trimStart, List.dropWhile_cons, h]

lemma filterNonWS_reverse (s : Str) :
    filterNonWS s.reverse = (filterNonWS s).reverse :=
  List.filter_reverse _ s

lemma filterNonWS_trimEnd (s : Str) :
    filterNonWS (trimEnd s) = filterNonWS s := by
  have h1 : filterNonWS (trimEnd s) = (filterNonWS (trimStart s.reverse)).reverse := by
    rw [trimEnd, ← trimStart, filterNonWS_reverse]
  rw [h1, filterNonWS_trimStart, filterNonWS_reverse, List.reverse_reverse]

lemma filterNonWS_sentinel (l : Str) :
    filterNonWS (if l = [] then ([' '] : Str) else l) = filterNonWS l := by
  split
  · subst ‹l = []›; rfl
  · rfl

lemma filterNonWS_flatten (L : List Str) :
    filterNonWS L.flatten = (L.map filterNonWS).flatten := by
  induction L with
  | nil => rfl
  | cons x L ih => simp [List.flatten_cons, filterNonWS_append, ih]

lemma flatten_runs (s : Str) : (runs s).flatten = s := by
  induction s with
  | nil => rfl
  | cons c cs ih =>
    simp only [runs]
    rcases hr : runs cs with - | ⟨r, rs⟩
    · rw [hr] at ih; simp at ih; simp [ih]
    · rw [hr] at ih
      rcases r with - | ⟨d, rtl⟩
      · simpa using ih
      · by_cases h : isWS c == isWS d <;> simp [h] <;> simpa using ih

lemma flatten_splitWSTokens (s : Str) : (splitWSTokens s).flatten = s := by
  have base := flatten_runs s
  simp only [splitWSTokens]
  rcases hr : runs s with - | ⟨r, rs⟩
  · rw [hr] at base; simpa using base.symm
  · rw [hr] at base
    rcases hls : (r :: rs).getLast? with - | t
    · simp only [hls]
      by_cases hf : headIsWS r <;> simpa [hf] using base
    · simp only [hls]
      by_cases hf : headIsWS r <;> by_cases ht : headIsWS t <;>
        simpa [hf, ht] using base

lemma wrapWords_content (m : Str → ℚ) (W : ℚ) (ws : List Str) (line : Str) :
    filterNonWS (wrapWords m W ws line).flatten
      = filterNonWS (line ++ ws.flatten) := by
  induction ws generalizing line with
  | nil =>
    simp only [wrapWords]
    split
    · simp [filterNonWS_trimEnd]
    · next h =>
      have : line = [] := by
        simpa using List.length_eq_zero.mp (Nat.eq_zero_of_not_pos h)
      simp [this]
  | cons w ws ih =>
    simp only [wrapWords]
    split
    · rw [ih]
      simp [List.append_assoc]
    · simp [List.flatten_cons, filterNonWS_append, filterNonWS_trimEnd, ih,
        filterNonWS_trimStart]

lemma splitChars_content (m : Str → ℚ) (W : ℚ) (cs buf : Str) :
    (splitChars m W cs buf).flatten = buf ++ cs := by
  induction cs generalizing buf with
  | nil =>
    simp only [splitChars]
    split
    · simp
    · next h =>
      have : buf = [] := by
        simpa using List.length_eq_zero.mp (Nat.eq_zero_of_not_pos h)
      simp [this]
  | cons ch rest ih =>
    simp only [splitChars]
    split
    · rw [ih]; simp
    · simp [ih]

lemma fixLine_content (m : Str → ℚ) (W : ℚ) (l : Str) :
    (fixLine m W l).flatten = l := by
  unfold fixLine
  split
  · simp
  · simpa using splitChars_content m W l []

lemma flatten_map_fixLine (m : Str → ℚ) (W : ℚ) (L : List Str) :
    ((L.map (fixLine m W)).flatten).flatten = L.flatten := by
  induction L with
  | nil => rfl
  | cons l L ih => simp [List.flatten_append, fixLine_content, ih]

lemma flatten_map_sentinel_filter (X : List Str) :
    filterNonWS ((X.map (fun l => if l = [] then ([' '] : Str) else l)).flatten)
      = filterNonWS X.flatten := by
  induction X with
  | nil => rfl
  | cons x X ih => simp [filterNonWS_append, filterNonWS_sentinel, ih]

/-- Per-paragraph content preservation: the lines attributed to one
paragraph concatenate (up to whitespace) to that paragraph. -/
lemma wrapParagraph_content (m : Str → ℚ) (W : ℚ) (p : Str) :
    filterNonWS (wrapParagraph m W p).flatten = filterNonWS p := by
  unfold wrapParagraph
  rw [flatten_map_sentinel_filter, flatten_map_fixLine]
  unfold wrapParagraph1
  split
  · next h =>
    rw [List.length_eq_zero.mp h]
    simp [filterNonWS_cons, show isWS ' ' = true from by decide]
  · rw [wrapWords_content]
    simp [flatten_splitWSTokens]

/-- `wrapLines` is the concatenation, paragraph by paragraph, of
`wrapParagraph`: the two flat passes of the source distribute over the
paragraph structure. -/
lemma wrapLines_decomp (m : Str → ℚ) (text : Str) (W : ℚ) :
    wrapLines m text W = ((paragraphs text).map (wrapParagraph m W)).flatten := by
  unfold wrapLines paragraphs
  generalize splitOnNewline (normalizeNewlines text) = L
  induction L with
  | nil => rfl
  | cons p L ih =>
    simp only [List.map_cons, List.flatten_cons, List.map_append,
      List.flatten_append] at ih ⊢
    rw [← ih]
    simp [wrapParagraph, List.map_append, List.flatten_append]

/-- Reduction of `normalizeNewlines` on a cons that is not a CRLF pair. -/
lemma normalizeNewlines_cons (c : Char) (rest : Str)
    (h : ∀ (r : Str), c = '\r' → rest = '\n' :: r → False) :
    normalizeNewlines (c :: rest) = c :: normalizeNewlines rest := by
  rw [normalizeNewlines.eq_def]
  split
  · next heq => exact absurd heq (by simp)
  · next r heq =>
    injection heq with h1 h2
    exact (h r h1 h2).elim
  · next c2 r2 heq =>
    injection heq with h1 h2
    subst h1; subst h2; rfl

lemma filterNonWS_normalizeNewlines (s : Str) :
    filterNonWS (normalizeNewlines s) = filterNonWS s := by
  induction s using normalizeNewlines.induct with
  | case1 => rfl
  | case2 rest ih =>
    rw [show normalizeNewlines ('\r' :: '\n' :: rest) = '\n' :: normalizeNewlines rest
      from rfl]
    rw [filterNonWS_cons, filterNonWS_cons, filterNonWS_cons,
      if_pos (show isWS '\n' = true from by decide),
      if_pos (show isWS '\n' = true from by decide),
      if_pos (show isWS '\r' = true from by decide), ih]
  | case3 c rest h ih =>
    rw [normalizeNewlines_cons c rest h, filterNonWS_cons, filterNonWS_cons, ih]

lemma filterNonWS_splitOnNewline (s : Str) :
    filterNonWS ((splitOnNewline s).flatten) = filterNonWS s := by
  induction s with
  | nil => rfl
  | cons c cs ih =>
    simp only [splitOnNewline]
    by_cases h : c = '\n'
    · subst h
      rw [if_pos rfl, List.flatten_cons, List.nil_append, ih, filterNonWS_cons,
        if_pos (show isWS '\n' = true from by decide)]
    · rw [if_neg h]
      rcases hs : splitOnNewline cs with - | ⟨p, ps⟩
      · rw [hs] at ih
        simp only [List.flatten_nil] at ih
        simp only [List.flatten_cons, List.flatten_nil, List.append_nil]
        rw [filterNonWS_cons, filterNonWS_cons, ← ih]
      · rw [hs] at ih
        simp only [List.flatten_cons] at ih ⊢
        rw [show (c :: p) ++ ps.flatten = c :: (p ++ ps.flatten) from rfl]
        rw [filterNonWS_cons, filterNonWS_cons, ih]

/-- C2: `wrapLines` is the paragraph-wise concatenation of
`wrapParagraph`, each paragraph's lines concatenate to exactly that
paragraph's non-whitespace characters in order, and globally the
non-whitespace content of the output equals that of the input. -/
theorem wrapLines_reconstructs (m : Str → ℚ) (text : Str) (W : ℚ) :
    wrapLines m text W = ((paragraphs text).map (wrapParagraph m W)).flatten
    ∧ (∀ p ∈ paragraphs text,
        filterNonWS (wrapParagraph m W p).flatten = filterNonWS p)
    ∧ filterNonWS (wrapLines m text W).flatten = filterNonWS text := by
  refine ⟨wrapLines_decomp m text W, fun p _ => wrapParagraph_content m W p, ?_⟩
  rw [wrapLines_decomp]
  conv_rhs => rw [← filterNonWS_normalizeNewlines,
    ← filterNonWS_splitOnNewline (normalizeNewlines text)]
  have hLHS : (((paragraphs text).map (wrapParagraph m W)).flatten).flatten
      = ((paragraphs text).map (fun p => (wrapParagraph m W p).flatten)).flatten := by
    generalize paragraphs text = L
    induction L with
    | nil => rfl
    | cons p L ih => simp [List.flatten_append, ih]
  rw [hLHS, filterNonWS_flatten, filterNonWS_flatten, List.map_map]
  congr 1
  exact List.map_congr_left fun p _ => wrapParagraph_content m W p

/-- Witness for C2 at the text `"a b"` with budget 2: the decomposition
holds and the single paragraph's lines carry exactly `"ab"`. -/
theorem wrapLines_reconstructs_witness :
    filterNonWS (wrapParagraph lenM 2 ('a' :: ' ' :: 'b' :: [])).flatten
      = filterNonWS ('a' :: ' ' :: 'b' :: []) :=
  (wrapLines_reconstructs lenM ('a' :: ' ' :: 'b' :: []) 2).2.1
    ('a' :: ' ' :: 'b' :: []) (by decide)

/-! ## Blank paragraphs and non-empty lines (C8) -/

lemma wrapParagraph_nil (m : Str → ℚ) (W : ℚ) : wrapParagraph m W [] = [[' ']] := by
  unfold wrapParagraph wrapParagraph1
  by_cases h : m [' '] ≤ W <;> simp [fixLine, splitChars, h]

lemma wrapLines_nil (m : Str → ℚ) (W : ℚ) : wrapLines m [] W = [[' ']] := by
  rw [wrapLines_decomp]
  show ((paragraphs []).map (wrapParagraph m W)).flatten = [[' ']]
  simp [paragraphs, normalizeNewlines, splitOnNewline, wrapParagraph_nil]

/-- C8: empty body text wraps to exactly one line holding a single space;
an empty paragraph contributes exactly the single-space sentinel line to
the paragraph-wise decomposition of `wrapLines`; and every returned line
is non-empty. -/
theorem wrapLines_blank_sentinel (m : Str → ℚ) (W : ℚ) (text : Str) :
    wrapLines m [] W = [[' ']]
    ∧ wrapParagraph m W [] = [[' ']]
    ∧ wrapLines m text W = ((paragraphs text).map (wrapParagraph m W)).flatten
    ∧ (∀ l ∈ wrapLines m text W, l ≠ []) := by
  refine ⟨wrapLines_nil m W, wrapParagraph_nil m W, wrapLines_decomp m text W, ?_⟩
  · intro l hl
    simp only [wrapLines, List.mem_map] at hl
    obtain ⟨l0, -, rfl⟩ := hl
    split <;> simp_all

/-- Witness for C8: the sentinel line returned for the empty text is
non-empty. -/
theorem wrapLines_blank_sentinel_witness : (' ' :: []) ≠ ([] : Str) :=
  (wrapLines_blank_sentinel lenM 5 []).2.2.2 [' '] (by decide)

/-! ## Loader failure atomicity (C4) -/

/-- C4: when a loader's decode or registration fails, the operation
reports the failure to the caller and every field of the render state is
unchanged (the object URL created before the failed decode leaks, but the
state is untouched). -/
theorem loader_failure_preserves_state (w : World) (cf : Bool) (family : Str) :
    ((setBackgroundImageFromBytes cf none w).error.isSome = true
      ∧ (setBackgroundImageFromBytes cf none w).world.state = w.state)
    ∧ ((loadFontFromBytes false family w).error.isSome = true
      ∧ (loadFontFromBytes false family w).world.state = w.state)
    ∧ ((loadSeparatorImage none w).error.isSome = true
      ∧ (loadSeparatorImage none w).world.state = w.state) := by
  refine ⟨⟨?_, ?_⟩, ⟨rfl, rfl⟩, ⟨rfl, rfl⟩⟩ <;> rcases cf <;> rfl

/-! ## Dispose idempotence (C7) -/

/-- C7: calling `disposeBackground` twice in a row produces the same
state as calling it once; the second call performs no URL release and
raises no error. -/
theorem disposeBackground_idempotent (w : World) :
    (disposeBackground (disposeBackground w).world).world = (disposeBackground w).world
    ∧ (disposeBackground (disposeBackground w).world).events = []
    ∧ (disposeBackground (disposeBackground w).world).error = none
    ∧ (disposeBackground w).error = none := by
  rcases w with ⟨⟨bg, burl, ff, fl, cff, sep⟩, cv, live, stored, next⟩
  rcases burl with - | u <;> simp [disposeBackground, revokeObjectUrl]

/-! ## The background-handle lifecycle invariant (towards C5) -/

/-- Lifecycle invariant: live URLs are below the freshness counter and
duplicate-free, and the live background handles are exactly the current
`bgObjectUrl`. -/
structure BgInv (w : World) : Prop where
  live_bound : ∀ u ∈ w.liveUrls, u < w.nextUrl
  stored_bound : ∀ u ∈ w.storedBgUrls, u < w.nextUrl
  live_nodup : w.liveUrls.Nodup
  tracked : liveBgUrls w = w.state.bgObjectUrl.toList

lemma bgInv_init (cv : Canvas) : BgInv (initWorld cv) := by
  constructor <;> simp [initWorld, initState, liveBgUrls]

lemma filter_stored_erase_eq_nil (live stored : List ℕ) (a : ℕ)
    (hnd : live.Nodup)
    (htr : live.filter (fun u => decide (u ∈ stored)) = [a]) :
    (live.erase a).filter (fun u => decide (u ∈ stored)) = [] := by
  rw [List.filter_eq_nil_iff]
  intro u hu hp
  have hmem : u ∈ live := List.mem_of_mem_erase hu
  have hin : u ∈ live.filter (fun u => decide (u ∈ stored)) :=
    List.mem_filter.2 ⟨hmem, hp⟩
  rw [htr] at hin
  have hua : u = a := by simpa using hin
  subst hua
  exact absurd ((List.Nodup.mem_erase_iff hnd).mp hu).1 (by simp)

lemma filter_stored_cons_fresh (live stored : List ℕ) (n : ℕ)
    (hb : ∀ u ∈ live, u < n) :
    live.filter (fun u => decide (u ∈ n :: stored))
      = live.filter (fun u => decide (u ∈ stored)) := by
  apply List.filter_congr
  intro u hu
  have hne : u ≠ n := Nat.ne_of_lt (hb u hu)
  apply decide_eq_decide.mpr
  simp [List.mem_cons, hne]

lemma bgInv_fresh_cons (w : World) (h : BgInv w) :
    BgInv { w with liveUrls := w.nextUrl :: w.liveUrls, nextUrl := w.nextUrl + 1 } := by
  obtain ⟨hb, hs, hnd, htr⟩ := h
  refine ⟨?_, ?_, ?_, ?_⟩
  · intro u hu
    rcases List.mem_cons.mp hu with rfl | hu'
    · exact Nat.lt_succ_self _
    · exact Nat.lt_trans (hb u hu') (Nat.lt_succ_self _)
  · intro u hu
    exact Nat.lt_trans (hs u hu) (Nat.lt_succ_self _)
  · rw [List.nodup_cons]
    exact ⟨fun hmem => absurd (hb _ hmem) (by omega), hnd⟩
  · simp only [liveBgUrls, List.filter_cons]
    have hnot : decide (w.nextUrl ∈ w.storedBgUrls) = false := by
      simp only [decide_eq_false_iff_not]
      intro hmem
      exact absurd (hs _ hmem) (by omega)
    rw [hnot]
    exact htr

lemma bgInv_applyOp (w : World) (op : LoaderOp) (h : BgInv w) :
    BgInv (applyOp w op).world := by
  obtain ⟨hb, hs, hnd, htr⟩ := h
  cases op with
  | setBg cf d =>
    cases cf with
    | false => exact ⟨hb, hs, hnd, htr⟩
    | true =>
      cases d with
      | none => exact bgInv_fresh_cons w ⟨hb, hs, hnd, htr⟩
      | some img =>
        rcases hbg : w.state.bgObjectUrl with - | a
        · have hworld : (applyOp w (.setBg true (some img))).world
              = { state := { w.state with bgObjectUrl := some w.nextUrl, bgImg := some img },
                  canvas := { width := if img.naturalWidth ≠ 0 then img.naturalWidth else img.width,
                              height := if img.naturalHeight ≠ 0 then img.naturalHeight else img.height },
                  liveUrls := w.nextUrl :: w.liveUrls,
                  storedBgUrls := w.nextUrl :: w.storedBgUrls,
                  nextUrl := w.nextUrl + 1 } := by
            simp [applyOp, setBackgroundImageFromBytes, createObjectURL, revokeObjectUrl, hbg]
          rw [hworld]
          refine ⟨?_, ?_, ?_, ?_⟩
          · intro u hu
            rcases List.mem_cons.mp hu with rfl | hu'
            · exact Nat.lt_succ_self _
            · exact Nat.lt_trans (hb u hu') (Nat.lt_succ_self _)
          · intro u hu
            rcases List.mem_cons.mp hu with rfl | hu'
            · exact Nat.lt_succ_self _
            · exact Nat.lt_trans (hs u hu') (Nat.lt_succ_self _)
          · rw [List.nodup_cons]
            exact ⟨fun hmem => absurd (hb _ hmem) (by omega), hnd⟩
          · simp only [liveBgUrls, List.filter_cons]
            have hhd : decide (w.nextUrl ∈ w.nextUrl :: w.storedBgUrls) = true := by simp
            rw [hhd, filter_stored_cons_fresh w.liveUrls w.storedBgUrls w.nextUrl hb]
            have hnil : w.liveUrls.filter (fun u => decide (u ∈ w.storedBgUrls)) = [] := by
              simpa [liveBgUrls, hbg] using htr
            rw [hnil]
            rfl
        · have htrA : w.liveUrls.filter (fun u => decide (u ∈ w.storedBgUrls)) = [a] := by
            simpa [liveBgUrls, hbg] using htr
          have haL : a ∈ w.liveUrls := by
            have : a ∈ w.liveUrls.filter (fun u => decide (u ∈ w.storedBgUrls)) := by
              rw [htrA]; exact List.mem_singleton_self a
            exact (List.mem_filter.mp this).1
          have haN : a ≠ w.nextUrl := Nat.ne_of_lt (hb a haL)
          have herase : (w.nextUrl :: w.liveUrls).erase a = w.nextUrl :: w.liveUrls.erase a := by
            rw [List.erase_cons]
            have : (w.nextUrl == a) = false := by
              simp only [beq_eq_false_iff_ne, ne_eq]
              exact fun hh => haN hh.symm
            rw [this]
            simp
          have hworld : (applyOp w (.setBg true (some img))).world
              = { state := { w.state with bgObjectUrl := some w.nextUrl, bgImg := some img },
                  canvas := { width := if img.naturalWidth ≠ 0 then img.naturalWidth else img.width,
                              height := if img.naturalHeight ≠ 0 then img.naturalHeight else img.height },
                  liveUrls := w.nextUrl :: w.liveUrls.erase a,
                  storedBgUrls := w.nextUrl :: w.storedBgUrls,
                  nextUrl := w.nextUrl + 1 } := by
            simp [applyOp, setBackgroundImageFromBytes, createObjectURL, revokeObjectUrl,
              hbg, herase]
          rw [hworld]
          refine ⟨?_, ?_, ?_, ?_⟩
          · intro u hu
            rcases List.mem_cons.mp hu with rfl | hu'
            · exact Nat.lt_succ_self _
            · exact Nat.lt_trans (hb u (List.mem_of_mem_erase hu')) (Nat.lt_succ_self _)
          · intro u hu
            rcases List.mem_cons.mp hu with rfl | hu'
            · exact Nat.lt_succ_self _
            · exact Nat.lt_trans (hs u hu') (Nat.lt_succ_self _)
          · rw [List.nodup_cons]
            exact ⟨fun hmem => absurd (hb _ (List.mem_of_mem_erase hmem)) (by omega),
                   hnd.erase a⟩
          · simp only [liveBgUrls, List.filter_cons]
            have hhd : decide (w.nextUrl ∈ w.nextUrl :: w.storedBgUrls) = true := by simp
            rw [hhd, filter_stored_cons_fresh (w.liveUrls.erase a) w.storedBgUrls w.nextUrl
              (fun u hu => hb u (List.mem_of_mem_erase hu)),
              filter_stored_erase_eq_nil w.liveUrls w.storedBgUrls a hnd htrA]
            rfl
  | loadFont ok f =>
    cases ok with
    | false => exact bgInv_fresh_cons w ⟨hb, hs, hnd, htr⟩
    | true =>
      have hworld : (applyOp w (.loadFont true f)).world
          = { state := { w.state with customFontFamily := some f },
              canvas := w.canvas, liveUrls := w.liveUrls,
              storedBgUrls := w.storedBgUrls, nextUrl := w.nextUrl + 1 } := by
        simp [applyOp, loadFontFromBytes, createObjectURL, revokeObjectUrl,
          List.erase_cons_head]
      rw [hworld]
      exact ⟨fun u hu => Nat.lt_trans (hb u hu) (Nat.lt_succ_self _),
             fun u hu => Nat.lt_trans (hs u hu) (Nat.lt_succ_self _), hnd, htr⟩
  | loadSep d =>
    cases d with
    | none => exact ⟨hb, hs, hnd, htr⟩
    | some img => exact ⟨hb, hs, hnd, htr⟩
  | loadBundled ok f =>
    cases ok with
    | false => exact ⟨hb, hs, hnd, htr⟩
    | true => exact ⟨hb, hs, hnd, htr⟩
  | clearFont => exact ⟨hb, hs, hnd, htr⟩
  | dispose =>
    rcases hbg : w.state.bgObjectUrl with - | a
    · have hworld : (applyOp w .dispose).world
          = { state := { w.state with bgObjectUrl := none, bgImg := none },
              canvas := w.canvas, liveUrls := w.liveUrls,
              storedBgUrls := w.storedBgUrls, nextUrl := w.nextUrl } := by
        simp [applyOp, disposeBackground, revokeObjectUrl, hbg]
      rw [hworld]
      refine ⟨hb, hs, hnd, ?_⟩
      simpa [liveBgUrls, hbg] using htr
    · have htrA : w.liveUrls.filter (fun u => decide (u ∈ w.storedBgUrls)) = [a] := by
        simpa [liveBgUrls, hbg] using htr
      have hworld : (applyOp w .dispose).world
          = { state := { w.state with bgObjectUrl := none, bgImg := none },
              canvas := w.canvas, liveUrls := w.liveUrls.erase a,
              storedBgUrls := w.storedBgUrls, nextUrl := w.nextUrl } := by
        simp [applyOp, disposeBackground, revokeObjectUrl, hbg]
      rw [hworld]
      refine ⟨fun u hu => hb u (List.mem_of_mem_erase hu), hs, hnd.erase a, ?_⟩
      simp only [liveBgUrls]
      rw [filter_stored_erase_eq_nil w.liveUrls w.storedBgUrls a hnd htrA]
      rfl

lemma bgInv_runOps (w : World) (ops : List LoaderOp) (h : BgInv w) :
    BgInv (runOps w ops) := by
  induction ops generalizing w with
  | nil => exact h
  | cons op ops ih => exact ih _ (bgInv_applyOp w op h)

/-- C5: replacing background A by background B revokes exactly one
handle, A's, before the new handle is stored; afterwards the surface has
B's natural dimensions; and along any operation sequence starting from
the initial world, the live background handles are exactly the current
one — in particular at most one is live. -/
theorem setBackground_single_live_handle :
    (∀ (w : World) (a : ℕ) (imgB : Img),
      w.state.bgObjectUrl = some a →
      imgB.naturalWidth ≠ 0 → imgB.naturalHeight ≠ 0 →
      (setBackgroundImageFromBytes true (some imgB) w).error = none ∧
      (setBackgroundImageFromBytes true (some imgB) w).events
        = [.created w.nextUrl, .revoked a, .storedBg w.nextUrl] ∧
      (setBackgroundImageFromBytes true (some imgB) w).world.state.bgObjectUrl
        = some w.nextUrl ∧
      (setBackgroundImageFromBytes true (some imgB) w).world.state.bgImg = some imgB ∧
      (setBackgroundImageFromBytes true (some imgB) w).world.canvas
        = { width := imgB.naturalWidth, height := imgB.naturalHeight })
    ∧ (∀ (cv : Canvas) (ops : List LoaderOp),
        liveBgUrls (runOps (initWorld cv) ops)
          = (runOps (initWorld cv) ops).state.bgObjectUrl.toList
        ∧ (liveBgUrls (runOps (initWorld cv) ops)).length ≤ 1) := by
  constructor
  · intro w a imgB hbg hw hh
    refine ⟨?_, ?_, ?_, ?_, ?_⟩ <;>
      simp [setBackgroundImageFromBytes, createObjectURL, revokeObjectUrl, hbg, hw, hh]
  · intro cv ops
    have h := bgInv_runOps _ ops (bgInv_init cv)
    refine ⟨h.tracked, ?_⟩
    rw [h.tracked]
    rcases (runOps (initWorld cv) ops).state.bgObjectUrl with - | u <;> simp

/-- Witness for C5: loading background B (800×600) over background A
whose handle is URL 0 revokes exactly handle 0, then stores handle 1, and
resizes the surface to 800×600. -/
theorem setBackground_single_live_handle_witness :
    (setBackgroundImageFromBytes true
        (some { naturalWidth := 800, naturalHeight := 600, width := 800, height := 600 })
        { state := { initState with
            bgImg := some { naturalWidth := 1024, naturalHeight := 768, width := 1024, height := 768 },
            bgObjectUrl := some 0 },
          canvas := { width := 1024, height := 768 }, liveUrls := [0],
          storedBgUrls := [0], nextUrl := 1 }).events
      = [.created 1, .revoked 0, .storedBg 1]
    ∧ (setBackgroundImageFromBytes true
        (some { naturalWidth := 800, naturalHeight := 600, width := 800, height := 600 })
        { state := { initState with
            bgImg := some { naturalWidth := 1024, naturalHeight := 768, width := 1024, height := 768 },
            bgObjectUrl := some 0 },
          canvas := { width := 1024, height := 768 }, liveUrls := [0],
          storedBgUrls := [0], nextUrl := 1 }).world.canvas
      = { width := 800, height := 600 } := by
  have h := setBackground_single_live_handle.1
    { state := { initState with
        bgImg := some { naturalWidth := 1024, naturalHeight := 768, width := 1024, height := 768 },
        bgObjectUrl := some 0 },
      canvas := { width := 1024, height := 768 }, liveUrls := [0],
      storedBgUrls := [0], nextUrl := 1 }
    0 { naturalWidth := 800, naturalHeight := 600, width := 800, height := 600 }
    rfl (by decide) (by decide)
  exact ⟨h.2.1, h.2.2.2.2⟩

/-! ## Anchor clamping (C6) -/

/-- C6: `clamp01` clamps every input to `[0, 1]` before interpolation:
`-0.5` becomes `0`, `1.7` becomes `1`, `NaN` (and every other non-finite
input, including `undefined` and the infinities) becomes `0`. -/
theorem clamp01_spec :
    clamp01 (.num (-(1 / 2))) = 0
    ∧ clamp01 (.num (17 / 10)) = 1
    ∧ clamp01 .nan = 0
    ∧ clamp01 .undef = 0
    ∧ (∀ p, clamp01 (.inf p) = 0)
    ∧ (∀ v, v.isFiniteNum = false → clamp01 v = 0)
    ∧ (∀ q : ℚ, q ≤ 0 → clamp01 (.num q) = 0)
    ∧ (∀ q : ℚ, 1 ≤ q → clamp01 (.num q) = 1)
    ∧ (∀ v, 0 ≤ clamp01 v ∧ clamp01 v ≤ 1) := by
  refine ⟨?_, ?_, rfl, rfl, fun p => rfl, ?_, ?_, ?_, ?_⟩
  · show max 0 (min 1 (-(1 / 2) : ℚ)) = 0
    norm_num [max_def, min_def]
  · show max 0 (min 1 (17 / 10 : ℚ)) = 1
    norm_num [max_def, min_def]
  · intro v hv
    cases v <;> first | rfl | exact absurd hv (by simp [JSVal.isFiniteNum])
  · intro q hq
    show max 0 (min 1 q) = 0
    rw [min_eq_right (le_trans hq zero_le_one), max_eq_left hq]
  · intro q hq
    show max 0 (min 1 q) = 1
    rw [min_eq_left hq, max_eq_right zero_le_one]
  · intro v
    cases v with
    | num q => exact ⟨le_max_left 0 _, max_le zero_le_one (min_le_left 1 q)⟩
    | undef => exact ⟨le_refl 0, zero_le_one⟩
    | nan => exact ⟨le_refl 0, zero_le_one⟩
    | inf p => exact ⟨le_refl 0, zero_le_one⟩

/-- Witness for C6: applying the clamping facts at `-1` and `2`. -/
theorem clamp01_spec_witness :
    clamp01 (.num (-1)) = 0 ∧ clamp01 (.num 2) = 1 :=
  ⟨clamp01_spec.2.2.2.2.2.2.1 (-1) (by norm_num),
   clamp01_spec.2.2.2.2.2.2.2.1 2 (by norm_num)⟩

/-! ## Blank-state rendering (C9) -/

/-- C9: when no background image is loaded (and the canvas and 2D context
exist), `render` issues exactly one clear of the full surface, no other
drawing, and reports no error. -/
theorem render_blank_when_no_background (st : RenderState) (cv : Canvas)
    (o : RenderOptions) (measure : FontSpec → Str → ℚ) (h : st.bgImg = none) :
    render st (some cv) true o measure
      = .ok [.clearRect 0 0 (cv.width : ℚ) (cv.height : ℚ)] := by
  simp [render, h]

/-- Witness for C9 on a fresh state and an 800×600 canvas. -/
theorem render_blank_when_no_background_witness :
    render initState (some { width := 800, height := 600 }) true emptyOpts
        (fun _ => lenM)
      = .ok [.clearRect 0 0 ((800 : ℕ) : ℚ) ((600 : ℕ) : ℚ)] :=
  render_blank_when_no_background initState { width := 800, height := 600 }
    emptyOpts (fun _ => lenM) rfl

/-! ## Shadow offsets (C10) -/

/-- C10: in a shadowed render every text draw carries equal horizontal
and vertical shadow offsets `Math.max(0, shadowOffsetPx ?? 2)`: a
negative offset is clamped to 0 and a missing offset defaults to 2. -/
theorem render_shadow_offset (st : RenderState) (cv : Canvas) (o : RenderOptions)
    (measure : FontSpec → Str → ℚ) (tr : List DrawOp)
    (hsh : o.withShadow = true)
    (htr : render st (some cv) true o measure = .ok tr) :
    (∀ s x y f sh, DrawOp.fillText s x y f sh ∈ tr →
        sh.offsetX = shadowOffsetOf o ∧ sh.offsetY = shadowOffsetOf o)
    ∧ (∀ q : ℚ, shadowOffsetOf { o with shadowOffsetPx := .num q } = .num (max 0 q))
    ∧ (∀ q : ℚ, q ≤ 0 → shadowOffsetOf { o with shadowOffsetPx := .num q } = .num 0)
    ∧ shadowOffsetOf { o with shadowOffsetPx := .undef } = .num 2 := by
  refine ⟨?_, ?_, ?_, ?_⟩
  · intro s x y f sh hmem
    have hshadow : appliedShadow o
        = { color := .blackA75, blur := 0, offsetX := shadowOffsetOf o,
            offsetY := shadowOffsetOf o } := by
      simp [appliedShadow, hsh]
    rcases hbg : st.bgImg with - | img
    · simp [render, hbg] at htr
      subst htr
      simp at hmem
    · simp only [render, hbg] at htr
      rw [if_neg (by simp)] at htr
      simp only [Except.ok.injEq] at htr
      subst htr
      rcases List.mem_append.mp hmem with hm | h5
      · rcases List.mem_append.mp hm with hm2 | h4
        · rcases List.mem_append.mp hm2 with h12 | h3
          · simp at h12
          · by_cases hn : o.showName
            · rw [if_pos hn, List.mem_singleton] at h3
              obtain ⟨-, -, -, -, hsheq⟩ := DrawOp.fillText.inj h3
              subst hsheq
              rw [hshadow]
              exact ⟨rfl, rfl⟩
            · rw [if_neg hn] at h3
              exact absurd h3 (List.not_mem_nil _)
        · rcases hls : o.showLine with - | - <;>
            rcases hsep : st.separatorImg with - | sep <;>
            simp [hls, hsep] at h4
      · obtain ⟨p, -, hp⟩ := List.mem_map.mp h5
        obtain ⟨-, -, -, -, hsheq⟩ := DrawOp.fillText.inj hp
        subst hsheq
        rw [hshadow]
        exact ⟨rfl, rfl⟩
  · intro q
    show jsMax (.num 0) (.num q) = .num (max 0 q)
    simp [jsMax]
  · intro q hq
    show jsMax (.num 0) (.num q) = .num 0
    simp [jsMax, max_eq_left hq]
  · show jsMax (.num 0) (.num 2) = .num 2
    simp [jsMax, max_eq_right (by norm_num : (0 : ℚ) ≤ 2)]

/-- Witness for C10: the default-offset fact instantiated on a concrete
shadowed render over a blank state. -/
theorem render_shadow_offset_witness :
    shadowOffsetOf { { emptyOpts with withShadow := true } with
        shadowOffsetPx := .undef } = .num 2 :=
  (render_shadow_offset initState { width := 800, height := 600 }
    { emptyOpts with withShadow := true } (fun _ => lenM)
    [.clearRect 0 0 ((800 : ℕ) : ℚ) ((600 : ℕ) : ℚ)] rfl rfl).2.2.2

/-! ## Separator anchor bug (C3) -/

def sepImgC3 : Img := { naturalWidth := 552, naturalHeight := 8, width := 552, height := 8 }

def bgImgC3 : Img := { naturalWidth := 800, naturalHeight := 600, width := 800, height := 600 }

def stC3 : RenderState :=
  { initState with bgImg := some bgImgC3, separatorImg := some sepImgC3 }

def optsC3 : RenderOptions := { emptyOpts with showLine := true }

/-- C3 fails on the code (operator precedence bug): with `nameX01` and
`nameY01` absent, the code evaluates `clamp01(NaN)` for both separator
anchors and draws the separator at the top-left edge (y = 0) of an
800×600 surface, even though the name-anchor default (0.20, 0.80) and the
offset `+0.025` prescribed by the claim (and by the dead `?? 0.80` in the
same source line, and the comment announcing the bar "slightly below the
name") put it at `clamp01(0.825)`, i.e. y = 495.  The separator size 552×8
matches the claim. -/
theorem separator_anchor_default_divergence :
    barY01 optsC3 = 0
    ∧ clamp01 (jsAdd (jsNullish optsC3.nameY01 (.num (4 / 5))) (.num (1 / 40))) = 33 / 40
    ∧ mathRound (lerp 0 600 (33 / 40)) = 495
    ∧ render stC3 (some { width := 800, height := 600 }) true optsC3 (fun _ => lenM)
        = .ok [.clearRect 0 0 800 600,
               .drawImage bgImgC3 (.num 0) (.num 0) (.num 800) (.num 600) 1 initShadow,
               .drawImage sepImgC3 (.num 0) (.num 0) (.num 552) (.num 8) 1
                 { initShadow with color := .transparent },
               .fillText [' '] (.num 160) (.num 480)
                 { weight := 700, size := .num 50, family := sansSerif } initShadow]
    ∧ (0 : ℚ) ≠ 495 := by
  refine ⟨rfl, ?_, ?_, ?_, by norm_num⟩
  · show max 0 (min 1 ((4 : ℚ) / 5 + 1 / 40)) = 33 / 40
    norm_num [max_def, min_def]
  · show ((⌊(0 : ℚ) + (600 - 0) * (33 / 40) + 1 / 2⌋ : ℤ) : ℚ) = 495
    norm_num
  · have hwrap : wrapLines lenM [] ((800 : ℕ) : ℚ) = [[' ']] := wrapLines_nil lenM _
    have hbarX : mathRound (lerp 0 ((800 : ℕ) : ℚ) (barX01 optsC3)) = 0 := by
      rw [show barX01 optsC3 = 0 from rfl]
      show ((⌊(0 : ℚ) + (((800 : ℕ) : ℚ) - 0) * 0 + 1 / 2⌋ : ℤ) : ℚ) = 0
      norm_num
    have hbarY : mathRound (lerp 0 ((600 : ℕ) : ℚ) (barY01 optsC3)) = 0 := by
      rw [show barY01 optsC3 = 0 from rfl]
      show ((⌊(0 : ℚ) + (((600 : ℕ) : ℚ) - 0) * 0 + 1 / 2⌋ : ℤ) : ℚ) = 0
      norm_num
    have hbodyX : mathRound (lerp 0 ((800 : ℕ) : ℚ)
        (clamp01 (jsNullish optsC3.bodyX01 (.num (1 / 5))))) = 160 := by
      show ((⌊(0 : ℚ) + (((800 : ℕ) : ℚ) - 0) * (max 0 (min 1 (1 / 5))) + 1 / 2⌋ : ℤ) : ℚ) = 160
      norm_num [max_def, min_def]
    have hbodyY : mathRound (lerp 0 ((600 : ℕ) : ℚ)
        (clamp01 (jsNullish optsC3.bodyY01 (.num (4 / 5))))) = 480 := by
      show ((⌊(0 : ℚ) + (((600 : ℕ) : ℚ) - 0) * (max 0 (min 1 (4 / 5))) + 1 / 2⌋ : ℤ) : ℚ) = 480
      norm_num [max_def, min_def]
    have hsize : jsMax (.num 10) (jsNullish optsC3.bodyFontSize (.num 50)) = .num 50 := by
      show JSVal.num (max 10 50) = .num 50
      norm_num [max_def]
    simp only [render]
    rw [if_neg (by simp)]
    rw [show stC3.bgImg = some bgImgC3 from rfl]
    simp only [hsize, hbarX, hbarY, hbodyX, hbodyY]
    rw [show optsC3.bodyText.getD [] = ([] : Str) from rfl, hwrap]
    rw [show optsC3.showName = false from rfl,
      show optsC3.showLine = true from rfl,
      show stC3.separatorImg = some sepImgC3 from rfl,
      show resolveFamily stC3 optsC3 = sansSerif from rfl,
      show appliedShadow optsC3 = initShadow from rfl]
    norm_num [List.enum, List.enumFrom, jsAdd, jsMul, jsRound, mathRound]

end UmaText
